import Mathlib

/-!
Verification of the schema-builder core (`js/schema.js`).

Schemas are JS arrays of the form `[tag, options, ...params]`, distinguished
from plain arrays by a hidden `_schema` marker property ("blessing"); `fn`
nodes additionally carry a `to` method property, and nodes returned by `desc`
carry an overridden `toString` (the reference-cache hook).  We embed the JS
value universe shallowly: arrays carry the three hidden-property flags
explicitly, objects are association lists of string keys, and the dynamic
type tests (`_.isString`, `_.isArray`, `_.isObject`, ...) become structural
predicates.  Fallible construction (the `throw` in `literals`) is an
`Except JS` whose error carries the offending value, and the process-wide
reference cache plus underscore's `uniqueId` counter are passed as explicit
state.
-/

namespace SchemaJs

/-- Hidden (non-index) properties a JS array may carry in this code base:
the `_schema` blessing marker, the `to` method attached by `fn`, and the
overridden `toString` installed by `refHandler`. -/
structure NodeProps where
  blessed : Bool := false
  hasTo : Bool := false
  hasRef : Bool := false
deriving Repr, DecidableEq

/-- Shallow embedding of the JS values `schema.js` manipulates. -/
inductive JS where
  | str : String → JS
  | num : Int → JS
  | boolVal : Bool → JS
  | nullVal : JS
  | undef : JS
  | regexp : String → JS
  | callable : Nat → JS
  | arr : NodeProps → List JS → JS
  | obj : List (String × JS) → JS

/-- `_.isArray(value)`. -/
@[simp] def isArrayJS : JS → Bool
  | .arr _ _ => true
  | _ => false

/-- `isSchema(value)`: an array carrying the `_schema` marker. -/
@[simp] def isSchema : JS → Bool
  | .arr p _ => p.blessed
  | _ => false

/-- `_.isString`. -/
@[simp] def isStringJS : JS → Bool
  | .str _ => true
  | _ => false

/-- `_.isNumber`. -/
@[simp] def isNumberJS : JS → Bool
  | .num _ => true
  | _ => false

/-- `_.isFunction`. -/
@[simp] def isFunctionJS : JS → Bool
  | .callable _ => true
  | _ => false

/-- `_.isObject`: anything of `typeof` object (non-null) or function. -/
@[simp] def isObjectJS : JS → Bool
  | .obj _ => true
  | .arr _ _ => true
  | .regexp _ => true
  | .callable _ => true
  | _ => false

/-- `value === undefined`. -/
def isUndef : JS → Bool
  | .undef => true
  | _ => false

/-- `bless(schema)`: set the `_schema` marker in place and return the value. -/
@[simp] def bless : JS → JS
  | .arr p es => .arr { p with blessed := true } es
  | v => v

/-- `refHandler`'s effect on the node itself: the `toString` override is
installed on the array (the cache-touching behaviour of that override is
modelled separately by `refToString`). -/
@[simp] def setRef : JS → JS
  | .arr p es => .arr { p with hasRef := true } es
  | v => v

/-- Read the `_schema` flag of an array (false on non-arrays). -/
@[simp] def blessedFlag : JS → Bool
  | .arr p _ => p.blessed
  | _ => false

/-- Whether the value carries the `to` method attached by `fn`. -/
@[simp] def hasToFlag : JS → Bool
  | .arr p _ => p.hasTo
  | _ => false

/-- Whether the value carries the `toString` override installed by `desc`. -/
@[simp] def hasRefFlag : JS → Bool
  | .arr p _ => p.hasRef
  | _ => false

/-- The reserved reference-token prefix: `var magic = '__$$_$_$$'`. -/
def magic : String := "__$$_$_$$"

/-- The process-wide reference cache, `var cache = {}`, as an association
list with the most recent entry first (later JS property writes shadow
earlier ones, and lookup takes the first hit). -/
abbrev Cache := List (String × JS)

/-- `cache[k]`: property read, `undefined` when the key is absent. -/
def cacheGet (cache : Cache) (k : String) : JS :=
  (cache.lookup k).getD (JS.undef : JS)

/-- `k[0] === '/' && k[k.length - 1] === '/'` (on the empty string both
indexings give `undefined`, so the test is false). -/
def isPatternKey (k : String) : Bool :=
  match k.data with
  | [] => false
  | c :: cs => c == '/' && cs.getLastD c == '/'

/-- `k.indexOf(magic) === 0`, i.e. `k` starts with the magic prefix. -/
def isRefKey (k : String) : Bool :=
  magic.data.isPrefixOf k.data

/-- `keyType(k)` from `schema.js`. -/
def keyType (k : String) : String :=
  if isPatternKey k then "pattern"
  else if isRefKey k then "reference"
  else "string"

/-- `k.slice(start, stop)` for the in-range uses in this code
(`k.slice(1, k.length - 1)`). -/
def jsSlice (k : String) (start stop : Nat) : String :=
  String.mk (((k.data).drop start).take (stop - start))

/-- `string(value)` builder: `['string', {}, val]` with
`val = ['value', value]` for a string argument, `['pattern', value]` for a
RegExp argument, `[]` otherwise (the result is blessed by `blessAll`). -/
def stringB (value : JS) : JS :=
  let val : JS :=
    match value with
    | .str s => .arr {} [.str "value", .str s]
    | .regexp r => .arr {} [.str "pattern", .regexp r]
    | _ => .arr {} []
  bless (.arr {} [.str "string", .obj [], val])

/-- `number(value)` builder: `['number', {}, val]` with
`val = ['interval', value]` for an array argument, `['value', value]` for a
numeric argument, `[]` otherwise (blessed by `blessAll`). -/
def numberB (value : JS) : JS :=
  let val : JS :=
    match value with
    | .arr p es => .arr {} [.str "interval", .arr p es]
    | .num n => .arr {} [.str "value", .num n]
    | _ => .arr {} []
  bless (.arr {} [.str "number", .obj [], val])

/-- The classification step of `key(schema, k)`, applied to the raw key and
the already-coerced value schema `w = literals(schema)`: builds the
`[keySchema, w]` pair for the `pattern`/`string`/`reference` cases. -/
def keyPair (cache : Cache) (k : String) (w : JS) : JS :=
  match keyType k with
  | "pattern" => .arr {} [stringB (.regexp (jsSlice k 1 (k.length - 1))), w]
  | "reference" => .arr {} [cacheGet cache k, w]
  | _ => .arr {} [stringB (.str k), w]

mutual

/-- `literals(value)`: pass blessed schemas through; coerce strings, numbers,
arrays (singleton → `arrayOf`, otherwise spread into `array`) and
non-array non-callable objects (single own key → `objectOf`/`dict`,
otherwise `object`); throw `Unknown schema value` (carrying the value)
on everything else.  The reference cache is threaded read-only: it is
consulted by `key` for reference-classified keys. -/
def literals (cache : Cache) (v : JS) : Except JS JS :=
  if isSchema v then .ok v
  else
    match v with
    | .str s => .ok (stringB (.str s))
    | .num n => .ok (numberB (.num n))
    | .arr _ es =>
      -- (value.length === 1) ? S.arrayOf(value[0]) : S.array(...value)
      match es with
      | [x] => arrayOfB cache x
      | [] => arrayB cache []
      | x :: y :: rest => arrayB cache (x :: y :: rest)
    | .obj fields =>
      -- Object.keys(value).length === 1 ? S.objectOf(value) : S.object(value);
      -- both alias objargs with the single-mapping argument form.
      if fields.length == 1 then objargsObj cache "dict" fields
      else objargsObj cache "object" fields
    | .regexp _ =>
      -- a RegExp passes `_.isObject && !_.isArray && !_.isFunction` and has
      -- no own enumerable keys, so it lands in the `object` branch, which on
      -- a keyless mapping is `objargs('object', [value])` with no pairs:
      .ok (bless (.arr {} [.str "object", .obj []]))
    | other => .error other
termination_by (sizeOf v, 0)
decreasing_by
  all_goals simp_wf
  all_goals first
    | (apply Prod.Lex.right; omega)
    | (apply Prod.Lex.left;
       try simp only [JS.arr.sizeOf_spec, JS.obj.sizeOf_spec, List.cons.sizeOf_spec,
         List.nil.sizeOf_spec, Prod.mk.sizeOf_spec];
       omega)

/-- `array(...schemas)` builder: `['tuple', {}, ...map(schemas, literals)]`
(blessed by `blessAll`). -/
def arrayB (cache : Cache) (schemas : List JS) : Except JS JS :=
  (fun cs => bless (.arr {} (.str "tuple" :: .obj [] :: cs))) <$>
    literalsList cache schemas
termination_by (sizeOf schemas, 1)
decreasing_by
  all_goals simp_wf
  all_goals first
    | (apply Prod.Lex.right; omega)
    | (apply Prod.Lex.left;
       try simp only [JS.arr.sizeOf_spec, JS.obj.sizeOf_spec, List.cons.sizeOf_spec,
         List.nil.sizeOf_spec, Prod.mk.sizeOf_spec];
       omega)

/-- `arrayOf(schema)` builder: `['list', {}, literals(schema)]`
(blessed by `blessAll`). -/
def arrayOfB (cache : Cache) (schema : JS) : Except JS JS :=
  (fun c => bless (.arr {} [.str "list", .obj [], c])) <$> literals cache schema
termination_by (sizeOf schema, 1)
decreasing_by
  all_goals simp_wf
  all_goals first
    | (apply Prod.Lex.right; omega)
    | (apply Prod.Lex.left;
       try simp only [JS.arr.sizeOf_spec, JS.obj.sizeOf_spec, List.cons.sizeOf_spec,
         List.nil.sizeOf_spec, Prod.mk.sizeOf_spec];
       omega)

/-- `_.map(schemas, literals)`, propagating the throw. -/
def literalsList (cache : Cache) (l : List JS) : Except JS (List JS) :=
  match l with
  | [] => .ok []
  | x :: xs => do
    let c ← literals cache x
    let cs ← literalsList cache xs
    pure (c :: cs)
termination_by (sizeOf l, 0)
decreasing_by
  all_goals simp_wf
  all_goals first
    | (apply Prod.Lex.right; omega)
    | (apply Prod.Lex.left;
       try simp only [JS.arr.sizeOf_spec, JS.obj.sizeOf_spec, List.cons.sizeOf_spec,
         List.nil.sizeOf_spec, Prod.mk.sizeOf_spec];
       omega)

/-- `objargs(type, args)` in the single-mapping-argument form:
`[type, {}, ..._.map(args[0], key)]` (blessed by `blessAll`). -/
def objargsObj (cache : Cache) (tag : String) (fields : List (String × JS)) :
    Except JS JS :=
  (fun pairs => bless (.arr {} (.str tag :: .obj [] :: pairs))) <$>
    keyList cache fields
termination_by (sizeOf fields, 1)
decreasing_by
  all_goals simp_wf
  all_goals first
    | (apply Prod.Lex.right; omega)
    | (apply Prod.Lex.left;
       try simp only [JS.arr.sizeOf_spec, JS.obj.sizeOf_spec, List.cons.sizeOf_spec,
         List.nil.sizeOf_spec, Prod.mk.sizeOf_spec];
       omega)

/-- `_.map(obj, key)`: for each own enumerable property `(k, v)` build
`key(v, k)`, i.e. coerce the value and classify the key. -/
def keyList (cache : Cache) (fields : List (String × JS)) :
    Except JS (List JS) :=
  match fields with
  | [] => .ok []
  | (k, v) :: rest => do
    let w ← literals cache v
    let ps ← keyList cache rest
    pure (keyPair cache k w :: ps)
termination_by (sizeOf fields, 0)
decreasing_by
  all_goals simp_wf
  all_goals first
    | (apply Prod.Lex.right; omega)
    | (apply Prod.Lex.left;
       try simp only [JS.arr.sizeOf_spec, JS.obj.sizeOf_spec, List.cons.sizeOf_spec,
         List.nil.sizeOf_spec, Prod.mk.sizeOf_spec];
       omega)

end

/-- `key(schema, k)`: coerce the value schema and classify/resolve the key
(`cases({...}, keyType(k))` in the source). -/
def keyF (cache : Cache) (schema : JS) (k : String) : Except JS JS :=
  (keyPair cache k) <$> literals cache schema

/-- `or(...schemas)` builder: `['or', {}, ..._.map(schemas, literals)]`
(blessed by `blessAll`). -/
def orB (cache : Cache) (schemas : List JS) : Except JS JS :=
  (fun cs => bless (.arr {} (.str "or" :: .obj [] :: cs))) <$>
    literalsList cache schemas

/-- Own enumerable string-keyed properties of a value (`_.map(x, ...)` /
`Object.keys(x)` domain); empty for non-mapping values such as a RegExp. -/
def jsOwnFields : JS → List (String × JS)
  | .obj f => f
  | _ => []

/-- `partitionN(coll, n)`:
`_.range(coll.length / n).map(i => coll.slice(i * n, (i + 1) * n))`
(`_.range` of the fractional quotient yields `ceil(length / n)` indices). -/
def partitionN (coll : List JS) (n : Nat) : List (List JS) :=
  (List.range ((coll.length + n - 1) / n)).map fun i => (coll.drop (i * n)).take n

/-- `partitionN(args, 2).map(schs => schs.map(literals))`, each chunk spread
back as a plain (unblessed) pair array. -/
def mapChunks (cache : Cache) : List (List JS) → Except JS (List JS)
  | [] => .ok []
  | c :: cs => do
    let c2 ← literalsList cache c
    let rest ← mapChunks cache cs
    pure (.arr {} c2 :: rest)

/-- `objargs(type, args)`: a single argument is treated as a mapping whose
entries go through `key`; otherwise the arguments are partitioned into
alternating key/value pairs, each element coerced by `literals`. -/
def objargs (cache : Cache) (tag : String) (args : List JS) : Except JS JS :=
  if args.length == 1 then
    objargsObj cache tag (jsOwnFields (args.headD .undef))
  else
    (fun chunks => bless (.arr {} (.str tag :: .obj [] :: chunks))) <$>
      mapChunks cache (partitionN args 2)

/-- `object(...args)` builder. -/
def objectB (cache : Cache) (args : List JS) : Except JS JS :=
  objargs cache "object" args

/-- `dict(...args)` builder. -/
def dictB (cache : Cache) (args : List JS) : Except JS JS :=
  objargs cache "dict" args

/-- `methods.objectOf = methods.dict`. -/
def objectOfB (cache : Cache) (args : List JS) : Except JS JS :=
  dictB cache args

/-- `fn(...schemas)` builder: `s = ['function', {}, null, ...map(schemas,
literals)]`, then `_.extend(s, {to: ...})` attaches the `to` method property
(the `hasTo` flag here) and `blessAll` blesses the node. -/
def fnB (cache : Cache) (schemas : List JS) : Except JS JS :=
  (fun cs => .arr { blessed := true, hasTo := true }
      (.str "function" :: .obj [] :: .nullVal :: cs)) <$>
    literalsList cache schemas

/-- The `to` method of a `fn` node `s`:
`blessFn(schema => [...s.slice(0, 2), schema, ...s.slice(3)])`.
`slice`/spread copy only the index properties, so the fresh array starts
with no hidden properties and is then blessed by `blessFn`; the return-slot
argument is inserted as given, with no `literals` coercion. -/
def toFn (f : JS) (schema : JS) : JS :=
  match f with
  | .arr _ es => bless (.arr {} (es.take 2 ++ schema :: es.drop 3))
  | v => v

/-- `m(...objs)` at its only call site `m({title, description}, opts)`:
`_.extend({}, a, b)` copies own keys left to right (later objects
overwrite, insertion order keeps the first writer's position), and
`_.pick(..., v => v !== undefined)` drops undefined-valued entries. -/
def mMerge (a b : List (String × JS)) : List (String × JS) :=
  ((a.map fun kv => (kv.1, (b.lookup kv.1).getD kv.2)) ++
      b.filter fun kv => (a.lookup kv.1).isNone).filter
    fun kv => !(isUndef kv.2)

/-- Array destructuring `[type, opts, ...rest] = node` (missing slots give
`undefined`; only array inputs occur at the call sites). -/
def destr3 : JS → JS × JS × List JS
  | .arr _ (t :: o :: rest) => (t, o, rest)
  | .arr _ [t] => (t, .undef, [])
  | _ => (.undef, .undef, [])

/-- `desc(...args)` builder: a 2-argument call is `unshift`-ed to
`(undefined, description, schema)`; the schema is coerced, destructured,
rebuilt with `m({title, description}, opts)` as options, passed through
`refHandler` and blessed by `blessAll`. -/
def descB (cache : Cache) (args : List JS) : Except JS JS := do
  let args := if args.length == 2 then JS.undef :: args else args
  let title := args.getD 0 .undef
  let description := args.getD 1 .undef
  let schema := args.getD 2 .undef
  let s ← literals cache schema
  let (type, opts, rest) := destr3 s
  pure (bless (setRef (.arr {}
    (type ::
      .obj (mMerge [("title", title), ("description", description)]
        (jsOwnFields opts)) ::
      rest))))

/-- `role(role, [type, opts, ...rest])` builder:
`['annotation', {role}, [type, opts, ...rest]]` — the inner node is rebuilt
as a fresh plain array; the outer node is blessed by `blessAll`. -/
def roleB (r : JS) (s : JS) : JS :=
  let (type, opts, rest) := destr3 s
  bless (.arr {} [.str "annotation", .obj [("role", r)],
    .arr {} (type :: opts :: rest)])

/-- `boolean: ['boolean', {}]` constant (blessed by `blessAll`). -/
def booleanC : JS := bless (.arr {} [.str "boolean", .obj []])

/-- `nullval: ['null', {}]` constant (blessed by `blessAll`). -/
def nullvalC : JS := bless (.arr {} [.str "null", .obj []])

/-- The mutable module state behind reference keys: underscore's `uniqueId`
counter and the persistent `cache` object. -/
structure RefState where
  counter : Nat
  cache : Cache

/-- `_.uniqueId(pre)`: `pre + (++idCounter)`. -/
def uniqueId (pre : String) (counter : Nat) : String × Nat :=
  (pre ++ toString (counter + 1), counter + 1)

/-- The `toString` override installed by `refHandler`: mint a fresh token
`_.uniqueId(magic)`, record the node in the cache under it, return it. -/
def refToString (s : JS) (st : RefState) : String × RefState :=
  let (id, n) := uniqueId magic st.counter
  (id, ⟨n, (id, s) :: st.cache⟩)

/-- `string()` with no argument: `['string', {}, []]`. -/
def sampleString : JS := stringB (JS.undef : JS)

/-- `desc('Name', 'desc', string())` evaluated. -/
def sampleDesc : JS :=
  .arr { blessed := true, hasRef := true }
    [.str "string",
      .obj [("title", .str "Name"), ("description", .str "desc")],
      .arr {} []]

/-- The first token `_.uniqueId(magic)` mints. -/
def sampleTok : String := magic ++ "1"

/-- The value kinds `literals` rejects at its own dispatch: booleans, `null`
and `undefined` fail `_.isObject`, and callables are explicitly excluded
from the mapping branch; everything else (schema, string, number, array,
mapping, RegExp) is accepted somewhere. -/
def badLeaf : JS → Bool
  | .boolVal _ => true
  | .nullVal => true
  | .undef => true
  | .callable _ => true
  | _ => false

/-- A key/value mapping proper (a plain object literal), as opposed to
other values `_.isObject` also accepts. -/
def isObjLiteral : JS → Bool
  | .obj _ => true
  | _ => false

section Lemmas

@[simp] theorem except_ok_bind {α β ε : Type} (a : α) (f : α → Except ε β) :
    (Except.ok a : Except ε α) >>= f = f a := rfl

@[simp] theorem except_map_ok {α β ε : Type} (f : α → β) (a : α) :
    f <$> (Except.ok a : Except ε α) = .ok (f a) := rfl

@[simp] theorem except_map_error {α β ε : Type} (f : α → β) (e : ε) :
    f <$> (Except.error e : Except ε α) = .error e := rfl

@[simp] theorem except_error_bind {α β ε : Type} (e : ε) (f : α → Except ε β) :
    (Except.error e : Except ε α) >>= f = .error e := rfl

theorem arrayB_ok_isSchema (cache : Cache) (l : List JS) (y : JS)
    (h : arrayB cache l = .ok y) : isSchema y = true := by
  unfold arrayB at h
  cases hl : literalsList cache l <;> simp [hl] at h <;> simp [← h]

theorem arrayOfB_ok_isSchema (cache : Cache) (x y : JS)
    (h : arrayOfB cache x = .ok y) : isSchema y = true := by
  unfold arrayOfB at h
  cases hl : literals cache x <;> simp [hl] at h <;> simp [← h]

theorem objargsObj_ok_isSchema (cache : Cache) (tag : String)
    (fields : List (String × JS)) (y : JS)
    (h : objargsObj cache tag fields = .ok y) : isSchema y = true := by
  unfold objargsObj at h
  cases hl : keyList cache fields <;> simp [hl] at h <;> simp [← h]

theorem literals_of_schema (cache : Cache) (s : JS)
    (h : isSchema s = true) : literals cache s = .ok s := by
  cases s with
  | arr p es =>
    simp at h
    unfold literals
    simp [h]
  | str s => simp at h
  | num n => simp at h
  | boolVal b => simp at h
  | nullVal => simp at h
  | undef => simp at h
  | regexp r => simp at h
  | callable i => simp at h
  | obj fields => simp at h

theorem literals_ok_isSchema (cache : Cache) (v y : JS)
    (h : literals cache v = .ok y) : isSchema y = true := by
  by_cases hs : isSchema v = true
  · rw [literals_of_schema cache v hs] at h
    cases h
    exact hs
  · cases v with
    | str s =>
      simp [literals] at h
      simp [← h, stringB]
    | num n =>
      simp [literals] at h
      simp [← h, numberB]
    | arr p es =>
      simp at hs
      cases es with
      | nil =>
        simp [literals, hs] at h
        exact arrayB_ok_isSchema cache [] y h
      | cons x tail =>
        cases tail with
        | nil =>
          simp [literals, hs] at h
          exact arrayOfB_ok_isSchema cache x y h
        | cons z rest =>
          simp [literals, hs] at h
          exact arrayB_ok_isSchema cache (x :: z :: rest) y h
    | obj fields =>
      cases hf : fields.length == 1 with
      | true =>
        simp [literals, hf] at h
        exact objargsObj_ok_isSchema cache "dict" fields y h
      | false =>
        simp [literals, hf] at h
        exact objargsObj_ok_isSchema cache "object" fields y h
    | regexp r =>
      simp [literals] at h
      simp [← h]
    | boolVal b => simp [literals] at h
    | nullVal => simp [literals] at h
    | undef => simp [literals] at h
    | callable i => simp [literals] at h

theorem literals_error_bad (cache : Cache) :
    ∀ v w, literals cache v = .error w → badLeaf w = true := by
  refine literals.induct cache
    (fun v => ∀ w, literals cache v = .error w → badLeaf w = true)
    (fun tag fields => ∀ w, objargsObj cache tag fields = .error w → badLeaf w = true)
    (fun fields => ∀ w, keyList cache fields = .error w → badLeaf w = true)
    (fun l => ∀ w, arrayB cache l = .error w → badLeaf w = true)
    (fun l => ∀ w, literalsList cache l = .error w → badLeaf w = true)
    (fun x => ∀ w, arrayOfB cache x = .error w → badLeaf w = true)
    ?_ ?_ ?_ ?_ ?_ ?_ ?_ ?_ ?_ ?_ ?_ ?_ ?_ ?_ ?_ ?_ ?_
  · intro v hv w hw
    rw [literals_of_schema cache v hv] at hw
    cases hw
  · intro s _ w hw
    simp [literals] at hw
  · intro n _ w hw
    simp [literals] at hw
  · intro a x hns ih w hw
    simp at hns
    simp [literals, hns] at hw
    exact ih w hw
  · intro a hns ih w hw
    simp at hns
    simp [literals, hns] at hw
    exact ih w hw
  · intro a x y rest hns ih w hw
    simp at hns
    simp [literals, hns] at hw
    exact ih w hw
  · intro fields hlen _ ih w hw
    simp [literals, hlen] at hw
    exact ih w hw
  · intro fields hlen _ ih w hw
    simp [literals, hlen] at hw
    exact ih w hw
  · intro a _ w hw
    simp [literals] at hw
  · intro other hstr hnum harr hobj hre _ w hw
    cases other with
    | str s => exact absurd rfl (hstr s)
    | num n => exact absurd rfl (hnum n)
    | arr p es => exact absurd rfl (harr p es)
    | obj fields => exact absurd rfl (hobj fields)
    | regexp r => exact absurd rfl (hre r)
    | boolVal b =>
      simp [literals] at hw
      simp [← hw, badLeaf]
    | nullVal =>
      simp [literals] at hw
      simp [← hw, badLeaf]
    | undef =>
      simp [literals] at hw
      simp [← hw, badLeaf]
    | callable i =>
      simp [literals] at hw
      simp [← hw, badLeaf]
  · intro tag fields ih w hw
    unfold objargsObj at hw
    cases hk : keyList cache fields <;> simp [hk] at hw
    subst hw
    exact ih _ hk
  · intro w hw
    simp [keyList] at hw
  · intro k v rest ih1 ih3 w hw
    simp only [keyList] at hw
    cases hv : literals cache v <;> simp [hv] at hw
    · subst hw
      exact ih1 _ hv
    · cases hr : keyList cache rest <;> simp [hr] at hw
      subst hw
      exact ih3 _ hr
  · intro schemas ih w hw
    unfold arrayB at hw
    cases hk : literalsList cache schemas <;> simp [hk] at hw
    subst hw
    exact ih _ hk
  · intro w hw
    simp [literalsList] at hw
  · intro x xs ih1 ih5 w hw
    simp only [literalsList] at hw
    cases hv : literals cache x <;> simp [hv] at hw
    · subst hw
      exact ih1 _ hv
    · cases hr : literalsList cache xs <;> simp [hr] at hw
      subst hw
      exact ih5 _ hr
  · intro schema ih w hw
    unfold arrayOfB at hw
    cases hv : literals cache schema <;> simp [hv] at hw
    subst hw
    exact ih _ hv

end Lemmas

section KeyLemmas

theorem isPatternKey_iff (k : String) :
    isPatternKey k = true ↔
      (k.data.head? = some '/' ∧ k.data.getLast? = some '/') := by
  obtain ⟨l⟩ := k
  cases l with
  | nil => simp [isPatternKey]
  | cons c cs =>
    simp [isPatternKey, List.getLastD_eq_getLast?, List.getLast?_cons]

theorem keyType_pattern_iff (k : String) :
    keyType k = "pattern" ↔ isPatternKey k = true := by
  unfold keyType
  cases h : isPatternKey k <;> simp [h]
  cases hr : isRefKey k <;> simp [hr] <;> decide

theorem isRefKey_iff (k : String) :
    isRefKey k = true ↔ ∃ t : String, k = magic ++ t := by
  unfold isRefKey
  rw [ List.isPrefixOf_iff_prefix]
  constructor
  · rintro ⟨l, hl⟩
    refine ⟨⟨l⟩, String.ext ?_⟩
    rw [String.data_append]
    exact hl.symm
  · rintro ⟨t, rfl⟩
    rw [String.data_append]
    exact List.prefix_append _ _

theorem keyType_reference_iff (k : String) (h : isPatternKey k = false) :
    keyType k = "reference" ↔ ∃ t : String, k = magic ++ t := by
  unfold keyType
  rw [h]
  cases hr : isRefKey k with
  | false =>
    simp
    intro x hx
    have hk := (isRefKey_iff k).mpr ⟨x, hx⟩
    rw [hr] at hk
    cases hk
  | true =>
    simp
    exact (isRefKey_iff k).mp hr

theorem keyType_string_default (k : String) (h1 : isPatternKey k = false)
    (h2 : isRefKey k = false) : keyType k = "string" := by
  unfold keyType
  rw [h1, h2]
  rfl

theorem isPatternKey_magic_append (s : String) :
    isPatternKey (magic ++ s) = false := by
  unfold isPatternKey
  rw [String.data_append]
  have hm : magic.data = '_' :: "_$$_$_$$".data := rfl
  rw [hm, List.cons_append]
  have hc : ('_' == '/') = false := rfl
  simp [hc]

theorem isRefKey_magic_append (s : String) :
    isRefKey (magic ++ s) = true := by
  unfold isRefKey
  rw [String.data_append, List.isPrefixOf_iff_prefix]
  exact List.prefix_append _ _

theorem keyType_magic_append (s : String) :
    keyType (magic ++ s) = "reference" := by
  unfold keyType
  rw [isPatternKey_magic_append, isRefKey_magic_append]
  rfl

theorem keyPair_pattern (cache : Cache) (k : String) (w : JS)
    (h : keyType k = "pattern") :
    keyPair cache k w =
      .arr {} [stringB (.regexp (jsSlice k 1 (k.length - 1))), w] := by
  unfold keyPair
  rw [h]
  rfl

theorem keyPair_reference (cache : Cache) (k : String) (w : JS)
    (h : keyType k = "reference") :
    keyPair cache k w = .arr {} [cacheGet cache k, w] := by
  unfold keyPair
  rw [h]
  rfl

theorem keyPair_string (cache : Cache) (k : String) (w : JS)
    (h : keyType k = "string") :
    keyPair cache k w = .arr {} [stringB (.str k), w] := by
  unfold keyPair
  rw [h]
  rfl

theorem keyF_eval (cache : Cache) (v w : JS) (k : String)
    (hw : literals cache v = .ok w) :
    keyF cache v k = .ok (keyPair cache k w) := by
  unfold keyF
  rw [hw]
  rfl

end KeyLemmas

/-- C7: literal coercion is idempotent: whenever `literals` succeeds, its
result is a blessed schema node, so coercing the result again returns it
unchanged; and any already-blessed node passes through as the same value. -/
theorem claim_C7_literals_idempotent :
    (∀ (cache : Cache) (x y : JS), literals cache x = .ok y →
      literals cache y = .ok y) ∧
    (∀ (cache : Cache) (s : JS), isSchema s = true → literals cache s = .ok s) :=
  ⟨fun cache x y h => literals_of_schema cache y (literals_ok_isSchema cache x y h),
   fun cache s h => literals_of_schema cache s h⟩

/-- C7 witness: idempotence of `literals` at the concrete input `5`. -/
theorem claim_C7_witness :
    literals [] (.num 5) = .ok (numberB (.num 5)) ∧
    literals [] (numberB (.num 5)) = .ok (numberB (.num 5)) :=
  ⟨by simp [literals],
   claim_C7_literals_idempotent.1 [] (.num 5) (numberB (.num 5)) (by simp [literals])⟩

/-- C8 (amended): `literals` raises the unknown-value error, carrying the
offending value, exactly when the input itself is a boolean, `null`,
`undefined` or a callable; any error it raises (also from nested values)
carries such a value. -/
theorem claim_C8_unknown_schema_value :
    ∀ (cache : Cache) (v : JS),
      (literals cache v = .error v ↔ badLeaf v = true) ∧
      (∀ w, literals cache v = .error w → badLeaf w = true) := by
  intro cache v
  refine ⟨⟨fun h => literals_error_bad cache v v h, fun h => ?_⟩,
    fun w hw => literals_error_bad cache v w hw⟩
  cases v <;> simp [badLeaf] at h <;> simp [literals]

/-- C8 witness: a callable raises the error, carrying the callable itself. -/
theorem claim_C8_witness :
    literals [] (.callable 0) = .error (.callable 0) ∧
    badLeaf (.callable 0) = true :=
  ⟨(claim_C8_unknown_schema_value [] (.callable 0)).1.mpr (by simp [badLeaf]),
   by simp [badLeaf]⟩

/-- C8 counterexample: a RegExp is not a schema node, not text, not numeric,
not a sequence and not a (non-callable) plain mapping, yet `literals`
accepts it through the object branch instead of raising. -/
theorem claim_C8_counterexample :
    (isSchema (JS.regexp "x") || isStringJS (JS.regexp "x") ||
      isNumberJS (JS.regexp "x") || isArrayJS (JS.regexp "x") ||
      (isObjLiteral (JS.regexp "x") && !isFunctionJS (JS.regexp "x"))) = false ∧
    literals [] (JS.regexp "x") =
      .ok (.arr { blessed := true } [.str "object", .obj []]) :=
  ⟨rfl, by simp [literals]⟩

/-- C3: evaluating the `array` builder at the test suite's own input
`array(number(5), string('foo'))` yields a bare `tuple`-tagged node with no
outer `array` wrapper, so its tag is `tuple`, not `array`. -/
theorem claim_C3_array_no_wrapper :
    arrayB [] [numberB (.num 5), stringB (.str "foo")] =
      .ok (.arr { blessed := true }
        [.str "tuple", .obj [], numberB (.num 5), stringB (.str "foo")]) ∧
    (JS.str "tuple") ≠ (JS.str "array") := by
  constructor
  · simp [arrayB, literalsList, literals, numberB, stringB]
  · intro h
    injection h with h2
    exact absurd h2 (by decide)

/-- C10: the `to` method property is present on the node `fn` builds, and
absent from the node `to` itself returns, so `to` cannot be chained. -/
theorem claim_C10_to_not_chainable :
    ∀ (cache : Cache) (schemas : List JS) (f r : JS),
      fnB cache schemas = .ok f →
      hasToFlag f = true ∧ hasToFlag (toFn f r) = false := by
  intro cache schemas f r h
  unfold fnB at h
  cases hl : literalsList cache schemas <;> simp [hl] at h
  rw [← h]
  simp [toFn]

/-- C10 witness: `fn()` has `to`; `fn().to(1)` does not. -/
theorem claim_C10_witness :
    fnB [] [] = .ok (.arr { blessed := true, hasTo := true }
      [.str "function", .obj [], .nullVal]) ∧
    hasToFlag (.arr { blessed := true, hasTo := true }
      [.str "function", .obj [], .nullVal]) = true ∧
    hasToFlag (toFn (.arr { blessed := true, hasTo := true }
      [.str "function", .obj [], .nullVal]) (.num 1)) = false := by
  have h0 : fnB [] [] = .ok (.arr { blessed := true, hasTo := true }
      [.str "function", .obj [], .nullVal]) := by simp [fnB, literalsList]
  have h1 := claim_C10_to_not_chainable [] [] _ (.num 1) h0
  exact ⟨h0, h1.1, h1.2⟩

/-- C4 (amended): `fn(...schemas)` builds `['function', {}, null, ...]` with
the arguments coerced by `literals` in order, decorated with `to`; and
`to(r)` returns a new blessed node whose return slot (index 2) holds `r` as
given — with no `literals` coercion — leaving the argument schemas
untouched. -/
theorem claim_C4_fn_to_returns :
    ∀ (cache : Cache) (schemas : List JS) (f : JS),
      fnB cache schemas = .ok f →
      ∃ cs, literalsList cache schemas = .ok cs ∧
        f = .arr { blessed := true, hasTo := true }
          (.str "function" :: .obj [] :: .nullVal :: cs) ∧
        ∀ r, toFn f r = .arr { blessed := true }
          (.str "function" :: .obj [] :: r :: cs) := by
  intro cache schemas f h
  unfold fnB at h
  cases hl : literalsList cache schemas <;> simp [hl] at h
  refine ⟨_, rfl, h.symm, fun r => ?_⟩
  rw [← h]
  simp [toFn]

/-- C4 witness: `fn('a').to(7)` replaces only the return slot, keeping the
coerced argument schema. -/
theorem claim_C4_witness :
    fnB [] [.str "a"] = .ok (.arr { blessed := true, hasTo := true }
      [.str "function", .obj [], .nullVal, stringB (.str "a")]) ∧
    toFn (.arr { blessed := true, hasTo := true }
        [.str "function", .obj [], .nullVal, stringB (.str "a")]) (.num 7) =
      .arr { blessed := true }
        [.str "function", .obj [], .num 7, stringB (.str "a")] := by
  have h0 : fnB [] [.str "a"] = .ok (.arr { blessed := true, hasTo := true }
      [.str "function", .obj [], .nullVal, stringB (.str "a")]) := by
    simp [fnB, literalsList, literals]
  obtain ⟨cs, hcs, hf, hto⟩ := claim_C4_fn_to_returns [] [.str "a"] _ h0
  have hcs2 : cs = [stringB (.str "a")] := by
    rw [show literalsList [] [JS.str "a"] = .ok [stringB (.str "a")] by
      simp [literalsList, literals]] at hcs
    exact (Except.ok.inj hcs).symm
  subst hcs2
  exact ⟨h0, by simpa using hto (.num 7)⟩

/-- C4 counterexample: `fn().to(5)` stores the raw `5` in the return slot,
not `literals(5)` (the number-value schema), refuting the claimed
`literals` coercion of the return argument. -/
theorem claim_C4_counterexample :
    fnB [] [] = .ok (.arr { blessed := true, hasTo := true }
      [.str "function", .obj [], .nullVal]) ∧
    toFn (.arr { blessed := true, hasTo := true }
        [.str "function", .obj [], .nullVal]) (.num 5) =
      .arr { blessed := true } [.str "function", .obj [], .num 5] ∧
    literals [] (.num 5) = .ok (numberB (.num 5)) ∧
    JS.num 5 ≠ numberB (.num 5) := by
  refine ⟨by simp [fnB, literalsList], by simp [toFn], by simp [literals], ?_⟩
  intro h
  exact JS.noConfusion h

theorem jsSlice_eq (k : String) :
    jsSlice k 1 (k.length - 1) = String.mk ((k.data.drop 1).dropLast) := by
  unfold jsSlice
  rw [List.dropLast_eq_take, List.length_drop]
  rfl

/-- C6: `keyType` classifies a key as `pattern` exactly when its first and
last characters are `/`; otherwise as `reference` exactly when it begins
with the magic prefix; otherwise as `string`.  For a pattern key, the
RegExp source handed to the key schema is the key text with its first and
last characters removed. -/
theorem claim_C6_keyType_classification :
    (∀ k : String, keyType k = "pattern" ↔
      (k.data.head? = some '/' ∧ k.data.getLast? = some '/')) ∧
    (∀ k : String, keyType k ≠ "pattern" →
      (keyType k = "reference" ↔ ∃ t : String, k = magic ++ t)) ∧
    (∀ k : String, keyType k ≠ "pattern" → keyType k ≠ "reference" →
      keyType k = "string") ∧
    (∀ (cache : Cache) (v w : JS) (k : String), keyType k = "pattern" →
      literals cache v = .ok w →
      keyF cache v k =
        .ok (.arr {} [stringB (.regexp (String.mk ((k.data.drop 1).dropLast))), w])) := by
  refine ⟨fun k => (keyType_pattern_iff k).trans (isPatternKey_iff k),
    fun k h => ?_, fun k h1 h2 => ?_, fun cache v w k hp hl => ?_⟩
  · have hp : isPatternKey k = false := by
      cases hq : isPatternKey k
      · rfl
      · exact absurd ((keyType_pattern_iff k).mpr hq) h
    exact keyType_reference_iff k hp
  · have hp : isPatternKey k = false := by
      cases hq : isPatternKey k
      · rfl
      · exact absurd ((keyType_pattern_iff k).mpr hq) h1
    cases hq : isRefKey k
    · exact keyType_string_default k hp hq
    · exfalso
      apply h2
      unfold keyType
      rw [hp, hq]
      rfl
  · rw [keyF_eval cache v w k hl, keyPair_pattern cache k w hp, jsSlice_eq]

/-- C6 witness: the pattern key `"/ab/"` is classified as `pattern` and its
outer delimiters are stripped before building the RegExp. -/
theorem claim_C6_witness :
    keyType "/ab/" = "pattern" ∧
    literals [] (.num 5) = .ok (numberB (.num 5)) ∧
    keyF [] (.num 5) "/ab/" =
      .ok (.arr {} [stringB (.regexp (String.mk (("/ab/".data.drop 1).dropLast))),
        numberB (.num 5)]) := by
  have hp : keyType "/ab/" = "pattern" := by decide
  have hl : literals [] (.num 5) = .ok (numberB (.num 5)) := by simp [literals]
  exact ⟨hp, hl, claim_C6_keyType_classification.2.2.2 [] (.num 5) (numberB (.num 5)) "/ab/" hp hl⟩

/-- C2 (amended): resolving a `reference`-classified key that is absent from
the cache raises no error: `key` succeeds and produces a pair whose
key-schema slot is `undefined` (the property-miss value). -/
theorem claim_C2_unresolved_reference :
    ∀ (cache : Cache) (v w : JS) (k : String),
      keyType k = "reference" → cache.lookup k = none →
      literals cache v = .ok w →
      keyF cache v k = .ok (.arr {} [.undef, w]) := by
  intro cache v w k hk hnone hlit
  rw [keyF_eval cache v w k hlit, keyPair_reference cache k w hk]
  unfold cacheGet
  rw [hnone]
  rfl

/-- C2 witness: a never-minted token in a nonempty cache resolves to an
`undefined` key schema without error. -/
theorem claim_C2_witness :
    keyType (magic ++ "7") = "reference" ∧
    List.lookup (magic ++ "7") [(magic ++ "1", booleanC)] = none ∧
    literals [(magic ++ "1", booleanC)] (.num 3) = .ok (numberB (.num 3)) ∧
    keyF [(magic ++ "1", booleanC)] (.num 3) (magic ++ "7") =
      .ok (.arr {} [.undef, numberB (.num 3)]) := by
  have h1 : keyType (magic ++ "7") = "reference" := keyType_magic_append "7"
  have h2 : List.lookup (magic ++ "7") [(magic ++ "1", booleanC)] = none := rfl
  have h3 : literals [(magic ++ "1", booleanC)] (.num 3) = .ok (numberB (.num 3)) := by
    simp [literals]
  exact ⟨h1, h2, h3,
    claim_C2_unresolved_reference [(magic ++ "1", booleanC)] (.num 3) (numberB (.num 3))
      (magic ++ "7") h1 h2 h3⟩

/-- C2 counterexample: with an empty cache, the magic token itself is a
`reference` key with no cache entry, yet the construction succeeds and
produces a pair whose key-schema slot is `undefined` — no error is raised
and a pair with a missing key schema is produced. -/
theorem claim_C2_counterexample :
    keyType magic = "reference" ∧
    List.lookup magic ([] : Cache) = none ∧
    keyF [] (.num 5) magic = .ok (.arr {} [.undef, numberB (.num 5)]) := by
  refine ⟨by decide, rfl, ?_⟩
  rw [keyF_eval [] (.num 5) (numberB (.num 5)) magic (by simp [literals]),
    keyPair_reference [] magic (numberB (.num 5)) (by decide)]
  rfl

theorem orB_ok_isSchema (cache : Cache) (l : List JS) (y : JS)
    (h : orB cache l = .ok y) : isSchema y = true := by
  unfold orB at h
  cases hl : literalsList cache l <;> simp [hl] at h <;> simp [← h]

theorem objargs_ok_isSchema (cache : Cache) (tag : String) (args : List JS)
    (y : JS) (h : objargs cache tag args = .ok y) : isSchema y = true := by
  unfold objargs at h
  by_cases hlen : (args.length == 1) = true
  · rw [if_pos hlen] at h
    exact objargsObj_ok_isSchema cache tag _ y h
  · rw [if_neg hlen] at h
    cases hc : mapChunks cache (partitionN args 2) <;> simp [hc] at h <;> simp [← h]

theorem fnB_ok_isSchema (cache : Cache) (l : List JS) (y : JS)
    (h : fnB cache l = .ok y) : isSchema y = true := by
  unfold fnB at h
  cases hl : literalsList cache l <;> simp [hl] at h <;> simp [← h]

theorem descB_ok_isSchema (cache : Cache) (args : List JS) (y : JS)
    (h : descB cache args = .ok y) : isSchema y = true := by
  unfold descB at h
  dsimp only [] at h
  cases hL : literals cache
      ((if args.length == 2 then JS.undef :: args else args).getD 2 .undef) with
  | error e =>
    rw [hL] at h
    simp at h
  | ok s =>
    rw [hL] at h
    simp only [except_ok_bind] at h
    rcases hd : destr3 s with ⟨t0, o0, r0⟩
    rw [hd] at h
    simp only [pure, Except.pure, Except.ok.injEq] at h
    simp [← h]

/-- C9: every consumer-facing builder returns a blessed node, and `isSchema`
holds exactly of sequences carrying the blessing marker. -/
theorem claim_C9_blessing_invariant :
    (∀ v, isSchema (stringB v) = true) ∧
    (∀ v, isSchema (numberB v) = true) ∧
    (∀ (cache : Cache) (ss : List JS) (y : JS),
      orB cache ss = .ok y → isSchema y = true) ∧
    (∀ (cache : Cache) (ss : List JS) (y : JS),
      arrayB cache ss = .ok y → isSchema y = true) ∧
    (∀ (cache : Cache) (s y : JS),
      arrayOfB cache s = .ok y → isSchema y = true) ∧
    (∀ (cache : Cache) (tag : String) (args : List JS) (y : JS),
      objargs cache tag args = .ok y → isSchema y = true) ∧
    (∀ (cache : Cache) (ss : List JS) (y : JS),
      fnB cache ss = .ok y → isSchema y = true) ∧
    (∀ (cache : Cache) (args : List JS) (y : JS),
      descB cache args = .ok y → isSchema y = true) ∧
    (∀ r s, isSchema (roleB r s) = true) ∧
    isSchema booleanC = true ∧
    isSchema nullvalC = true ∧
    (∀ (cache : Cache) (ss : List JS) (f r : JS),
      fnB cache ss = .ok f → isSchema (toFn f r) = true) ∧
    (∀ (cache : Cache) (x y : JS),
      literals cache x = .ok y → isSchema y = true) ∧
    (∀ v, isSchema v = true ↔ ∃ p es, v = JS.arr p es ∧ p.blessed = true) := by
  refine ⟨fun v => by simp [stringB], fun v => by simp [numberB],
    orB_ok_isSchema, arrayB_ok_isSchema, arrayOfB_ok_isSchema,
    objargs_ok_isSchema, fnB_ok_isSchema, descB_ok_isSchema,
    fun r s => ?_, by simp [booleanC], by simp [nullvalC],
    fun cache ss f r h => ?_, literals_ok_isSchema, fun v => ?_⟩
  · unfold roleB
    rcases hd : destr3 s with ⟨t0, o0, r0⟩
    simp
  · unfold fnB at h
    cases hl : literalsList cache ss <;> simp [hl] at h
    rw [← h]
    simp [toFn]
  · cases v <;> simp

/-- C9 witness: the `fn()` node is blessed, instantiating the builder
conjunct with its hypothesis discharged concretely. -/
theorem claim_C9_witness :
    fnB [] [] = .ok (.arr { blessed := true, hasTo := true }
      [.str "function", .obj [], .nullVal]) ∧
    isSchema (.arr { blessed := true, hasTo := true }
      [.str "function", .obj [], .nullVal]) = true := by
  have h0 : fnB [] [] = .ok (.arr { blessed := true, hasTo := true }
      [.str "function", .obj [], .nullVal]) := by simp [fnB, literalsList]
  exact ⟨h0, claim_C9_blessing_invariant.2.2.2.2.2.2.1 [] [] _ h0⟩

theorem lookup_none_forall {β : Type} (k : String) (l : List (String × β)) :
    l.lookup k = none ↔ ∀ p ∈ l, p.1 ≠ k := by
  induction l with
  | nil => simp
  | cons a t ih =>
    obtain ⟨k1, v1⟩ := a
    by_cases hk : k == k1
    · simp [List.lookup, hk]
      intro h
      exact absurd (eq_of_beq hk).symm h
    · simp [List.lookup, hk, ih]
      intro h he
      exact absurd (beq_iff_eq.mpr he.symm) hk

theorem descB_eval3 (cache : Cache) (t d s ty : JS) (p : NodeProps)
    (opts : List (String × JS)) (rest : List JS)
    (hl : literals cache s = .ok (.arr p (ty :: .obj opts :: rest))) :
    descB cache [t, d, s] = .ok (.arr { blessed := true, hasRef := true }
      (ty :: .obj (mMerge [("title", t), ("description", d)] opts) :: rest)) := by
  have hstep : descB cache [t, d, s] = literals cache s >>= (fun s1 =>
      match destr3 s1 with
      | (ty2, op2, r2) => pure (bless (setRef (.arr {}
          (ty2 :: .obj (mMerge [("title", t), ("description", d)]
            (jsOwnFields op2)) :: r2))))) := rfl
  rw [hstep, hl]
  simp only [except_ok_bind]
  rfl

theorem descB_eval2 (cache : Cache) (d s ty : JS) (p : NodeProps)
    (opts : List (String × JS)) (rest : List JS)
    (hl : literals cache s = .ok (.arr p (ty :: .obj opts :: rest))) :
    descB cache [d, s] = .ok (.arr { blessed := true, hasRef := true }
      (ty :: .obj (mMerge [("title", .undef), ("description", d)] opts) :: rest)) := by
  have hstep : descB cache [d, s] = literals cache s >>= (fun s1 =>
      match destr3 s1 with
      | (ty2, op2, r2) => pure (bless (setRef (.arr {}
          (ty2 :: .obj (mMerge [("title", JS.undef), ("description", d)]
            (jsOwnFields op2)) :: r2))))) := rfl
  rw [hstep, hl]
  simp only [except_ok_bind]
  rfl

theorem mMerge_fresh (t d : JS) (opts : List (String × JS))
    (hT : opts.lookup "title" = none) (hD : opts.lookup "description" = none)
    (hU : ∀ kv ∈ opts, isUndef kv.2 = false)
    (hUt : isUndef t = false) (hUd : isUndef d = false) :
    mMerge [("title", t), ("description", d)] opts =
      ("title", t) :: ("description", d) :: opts := by
  have hkeys := (lookup_none_forall "title" opts).mp hT
  have hkeys2 := (lookup_none_forall "description" opts).mp hD
  unfold mMerge
  simp only [List.map_cons, List.map_nil]
  rw [hT, hD]
  simp only [Option.getD_none]
  have hfil : (opts.filter fun kv =>
      (List.lookup kv.1 [("title", t), ("description", d)]).isNone) = opts := by
    rw [List.filter_eq_self]
    intro kv hkv
    have h1 : (kv.1 == "title") = false := by
      cases hq : kv.1 == "title"
      · rfl
      · exact absurd (eq_of_beq hq) (hkeys kv hkv)
    have h2 : (kv.1 == "description") = false := by
      cases hq : kv.1 == "description"
      · rfl
      · exact absurd (eq_of_beq hq) (hkeys2 kv hkv)
    simp [List.lookup, h1, h2]
  rw [hfil]
  rw [List.cons_append, List.cons_append, List.nil_append]
  rw [List.filter_cons_of_pos (by simp [hUt]),
    List.filter_cons_of_pos (by simp [hUd])]
  have hfin : List.filter (fun kv => !isUndef kv.2) opts = opts := by
    rw [List.filter_eq_self]
    intro kv hkv
    simp [hU kv hkv]
  rw [hfin]

theorem mMerge_existing_title (t d tv : JS) (opts : List (String × JS))
    (hT : opts.lookup "title" = some tv) (hUv : isUndef tv = false) :
    (mMerge [("title", t), ("description", d)] opts).lookup "title" = some tv := by
  unfold mMerge
  simp only [List.map_cons, List.map_nil]
  rw [hT]
  simp only [Option.getD_some, List.cons_append]
  rw [List.filter_cons_of_pos (by simp [hUv])]
  simp [List.lookup]

theorem mMerge_no_title (d : JS) (opts : List (String × JS))
    (hT : opts.lookup "title" = none) :
    (mMerge [("title", .undef), ("description", d)] opts).lookup "title" = none := by
  rw [lookup_none_forall]
  intro p hp
  unfold mMerge at hp
  rw [List.mem_filter] at hp
  obtain ⟨hp1, hp2⟩ := hp
  rw [List.mem_append] at hp1
  cases hp1 with
  | inl hmap =>
    simp only [List.map_cons, List.map_nil, hT, Option.getD_none, List.mem_cons,
      List.not_mem_nil, or_false] at hmap
    cases hmap with
    | inl he =>
      rw [he] at hp2
      simp [isUndef] at hp2
    | inr he =>
      rw [he]
      show ("description" : String) ≠ "title"
      decide
  | inr hfil =>
    rw [List.mem_filter] at hfil
    obtain ⟨_, hpred⟩ := hfil
    intro hcon
    rw [hcon] at hpred
    simp [List.lookup] at hpred

/-- C5 (amended): `desc` rebuilds the coerced schema with the same tag and
params, and options `m({title, description}, opts)` in which the existing
options take precedence over the supplied metadata (the new title and
description fill only absent keys); on a schema whose options lack both,
they are added in front; the two-argument form supplies `undefined` as the
title, which the merge drops, so no title key appears; undefined metadata
values are never stored. -/
theorem claim_C5_desc_metadata :
    (∀ (cache : Cache) (t d s ty : JS) (p : NodeProps)
        (opts : List (String × JS)) (rest : List JS),
      literals cache s = .ok (.arr p (ty :: .obj opts :: rest)) →
      descB cache [t, d, s] = .ok (.arr { blessed := true, hasRef := true }
          (ty :: .obj (mMerge [("title", t), ("description", d)] opts) :: rest)) ∧
      descB cache [d, s] = .ok (.arr { blessed := true, hasRef := true }
          (ty :: .obj (mMerge [("title", .undef), ("description", d)] opts) :: rest))) ∧
    (∀ (t d : JS) (opts : List (String × JS)),
      opts.lookup "title" = none → opts.lookup "description" = none →
      (∀ kv ∈ opts, isUndef kv.2 = false) →
      isUndef t = false → isUndef d = false →
      mMerge [("title", t), ("description", d)] opts =
        ("title", t) :: ("description", d) :: opts) ∧
    (∀ (t d tv : JS) (opts : List (String × JS)),
      opts.lookup "title" = some tv → isUndef tv = false →
      (mMerge [("title", t), ("description", d)] opts).lookup "title" = some tv) ∧
    (∀ (d : JS) (opts : List (String × JS)),
      opts.lookup "title" = none →
      (mMerge [("title", .undef), ("description", d)] opts).lookup "title" = none) :=
  ⟨fun cache t d s ty p opts rest hl =>
    ⟨descB_eval3 cache t d s ty p opts rest hl,
     descB_eval2 cache d s ty p opts rest hl⟩,
   mMerge_fresh, mMerge_existing_title, mMerge_no_title⟩

/-- C5 witness: `desc('Name', 'desc', string())` adds both metadata keys to
the empty options of the string schema, leaving tag and params unchanged. -/
theorem claim_C5_witness :
    literals [] sampleString = .ok (.arr { blessed := true }
      (.str "string" :: .obj [] :: [.arr {} []])) ∧
    descB [] [.str "Name", .str "desc", sampleString] =
      .ok (.arr { blessed := true, hasRef := true }
        (.str "string" ::
          .obj (("title", .str "Name") :: ("description", .str "desc") :: []) ::
          [.arr {} []])) := by
  have hl : literals [] sampleString = .ok (.arr { blessed := true }
      (.str "string" :: .obj [] :: [.arr {} []])) := by
    simp [literals, sampleString, stringB]
  have h3 := (claim_C5_desc_metadata.1 [] (.str "Name") (.str "desc") sampleString
    (.str "string") { blessed := true } [] [.arr {} []] hl).1
  have hm := claim_C5_desc_metadata.2.1 (.str "Name") (.str "desc") [] rfl rfl
    (by intro kv hkv; cases hkv) rfl rfl
  rw [hm] at h3
  exact ⟨hl, h3⟩

/-- C5 counterexample: `desc('T2', 'D2', d1)` on a node `d1` already carrying
`title:'T1', description:'D1'` keeps the old metadata — the merge lets
existing options win — so the options are not extended by the new title:
the result equals `d1` itself, and `'T1' ≠ 'T2'`. -/
theorem claim_C5_counterexample :
    descB [] [.str "T2", .str "D2",
        .arr { blessed := true, hasRef := true }
          [.str "string", .obj [("title", .str "T1"), ("description", .str "D1")],
            .arr {} []]] =
      .ok (.arr { blessed := true, hasRef := true }
        [.str "string", .obj [("title", .str "T1"), ("description", .str "D1")],
          .arr {} []]) ∧
    (JS.str "T1") ≠ (JS.str "T2") := by
  constructor
  · have hl := literals_of_schema []
      (.arr { blessed := true, hasRef := true }
        [.str "string", .obj [("title", .str "T1"), ("description", .str "D1")],
          .arr {} []]) (by simp)
    have h3 := descB_eval3 [] (.str "T2") (.str "D2") _ (.str "string")
      { blessed := true, hasRef := true }
      [("title", .str "T1"), ("description", .str "D1")] [.arr {} []] hl
    rw [h3]
    rfl
  · intro h
    injection h with h2
    exact absurd h2 (by decide)

end SchemaJs

namespace SchemaJs

theorem descB_ok_shape (cache : Cache) (args : List JS) (s : JS)
    (h : descB cache args = .ok s) :
    ∃ es, s = .arr { blessed := true, hasRef := true } es := by
  unfold descB at h
  dsimp only [] at h
  cases hL : literals cache
      ((if args.length == 2 then JS.undef :: args else args).getD 2 .undef) with
  | error e =>
    rw [hL] at h
    simp at h
  | ok s1 =>
    rw [hL] at h
    simp only [except_ok_bind] at h
    rcases hd : destr3 s1 with ⟨t0, o0, r0⟩
    rw [hd] at h
    simp only [pure, Except.pure, Except.ok.injEq] at h
    exact ⟨_, h.symm⟩

/-- C1: the reference-key round trip.  For any node `s` built by `desc`
(which therefore carries the reference `toString` behaviour), coercing `s`
to text mints a token `t` and records `s` in the cache under `t`; `t` is
classified as a `reference` key, and resolving it during object/dict
construction yields the pair `[s, literals(value)]` — the key schema is the
very node `s`; building the single-entry object literal `{[t]: value}`
produces the `dict` node containing that pair. -/
theorem claim_C1_reference_roundtrip :
    ∀ (cache0 : Cache) (dargs : List JS) (s : JS),
      descB cache0 dargs = .ok s →
      ∀ (st st2 : RefState) (t : String),
        refToString s st = (t, st2) →
        ∀ (v w : JS), literals st2.cache v = .ok w →
          hasRefFlag s = true ∧
          keyType t = "reference" ∧
          st2.cache.lookup t = some s ∧
          keyF st2.cache v t = .ok (.arr {} [s, w]) ∧
          literals st2.cache (.obj [(t, v)]) =
            .ok (.arr { blessed := true }
              [.str "dict", .obj [], .arr {} [s, w]]) := by
  intro cache0 dargs s hdesc st st2 t hmint v w hlit
  obtain ⟨es, hs⟩ := descB_ok_shape cache0 dargs s hdesc
  have href : hasRefFlag s = true := by rw [hs]; rfl
  have hmint2 : ((magic ++ toString (st.counter + 1) : String),
      (⟨st.counter + 1,
        (magic ++ toString (st.counter + 1), s) :: st.cache⟩ : RefState)) =
      (t, st2) := by
    rw [← hmint]
    rfl
  injection hmint2 with ht hst2
  subst ht
  subst hst2
  have hktype : keyType (magic ++ toString (st.counter + 1)) = "reference" :=
    keyType_magic_append _
  set t := magic ++ toString (st.counter + 1) with htdef
  have hcache : ((⟨st.counter + 1, (t, s) :: st.cache⟩ : RefState)).cache =
      (t, s) :: st.cache := rfl
  have hlook : List.lookup t ((t, s) :: st.cache) = some s := by
    simp [List.lookup]
  have hget : cacheGet ((t, s) :: st.cache) t = s := by
    unfold cacheGet
    rw [hlook]
    rfl
  have hkeyf : keyF ((t, s) :: st.cache) v t = .ok (.arr {} [s, w]) := by
    rw [keyF_eval ((t, s) :: st.cache) v w t hlit,
      keyPair_reference ((t, s) :: st.cache) t w hktype, hget]
  have hkl : keyList ((t, s) :: st.cache) [(t, v)] = .ok [.arr {} [s, w]] := by
    simp only [keyList]
    rw [hlit]
    simp only [except_ok_bind, keyList]
    rw [keyPair_reference ((t, s) :: st.cache) t w hktype, hget]
    rfl
  have hobj : literals ((t, s) :: st.cache) (.obj [(t, v)]) =
      objargsObj ((t, s) :: st.cache) "dict" [(t, v)] := by
    unfold literals
    rfl
  refine ⟨href, hktype, hlook, hkeyf, ?_⟩
  rw [hobj]
  unfold objargsObj
  rw [hkl]
  rfl

/-- C1 witness: `desc('Name', 'desc', string())` used as a computed object
key round-trips through the reference cache to the very same node. -/
theorem claim_C1_witness :
    descB [] [.str "Name", .str "desc", sampleString] = .ok sampleDesc ∧
    refToString sampleDesc ⟨0, []⟩ = (sampleTok, ⟨1, [(sampleTok, sampleDesc)]⟩) ∧
    literals [(sampleTok, sampleDesc)] (numberB .undef) = .ok (numberB .undef) ∧
    (hasRefFlag sampleDesc = true ∧
      keyType sampleTok = "reference" ∧
      List.lookup sampleTok [(sampleTok, sampleDesc)] = some sampleDesc ∧
      keyF [(sampleTok, sampleDesc)] (numberB .undef) sampleTok =
        .ok (.arr {} [sampleDesc, numberB .undef]) ∧
      literals [(sampleTok, sampleDesc)] (.obj [(sampleTok, numberB .undef)]) =
        .ok (.arr { blessed := true }
          [.str "dict", .obj [], .arr {} [sampleDesc, numberB .undef]])) := by
  have hdesc : descB [] [.str "Name", .str "desc", sampleString] = .ok sampleDesc := by
    have hl : literals [] sampleString = .ok (.arr { blessed := true }
        (.str "string" :: .obj [] :: [.arr {} []])) := by
      simp [literals, sampleString, stringB]
    have h3 := descB_eval3 [] (.str "Name") (.str "desc") sampleString
      (.str "string") { blessed := true } [] [.arr {} []] hl
    rw [h3]
    rfl
  have hmint : refToString sampleDesc ⟨0, []⟩ =
      (sampleTok, ⟨1, [(sampleTok, sampleDesc)]⟩) := rfl
  have hlit : literals [(sampleTok, sampleDesc)] (numberB .undef) =
      .ok (numberB .undef) := by
    simp [literals, numberB]
  exact ⟨hdesc, hmint, hlit,
    claim_C1_reference_roundtrip [] [.str "Name", .str "desc", sampleString]
      sampleDesc hdesc ⟨0, []⟩ ⟨1, [(sampleTok, sampleDesc)]⟩ sampleTok hmint
      (numberB .undef) (numberB .undef) hlit⟩

end SchemaJs
